import Mathlib

/-!
Verification development for a static-asset HTTP responder
(`pyramid/static.py`): conditional GET (If-Modified-Since), single-range
Range-header parsing, partial-content response construction, safe path
resolution, and chunked file streaming.

Strings coming in from the network (header values) are embedded as
`List Char`; byte contents of files are embedded as `List Nat`.  Fallible
Python code (raising `ValueError` / `IOError`) is embedded in
`Except Unit`.
-/

set_option maxRecDepth 4096

/-! ### Python string and integer primitives -/

/-- Embeds Python `s.startswith(c)` for a single-character prefix `c`. -/
def pyStartsWithChar : List Char → Char → Bool
  | [], _ => false
  | c :: _, p => c == p

/-- Embeds the Python membership test `c in s` for a character `c`. -/
def pyContainsChar (s : List Char) (c : Char) : Bool :=
  s.any (fun a => a == c)

/-- Embeds Python `s.split(sep, 1)` followed by unpacking into exactly two
variables: `none` models the `ValueError` raised when `sep` does not occur
(the split yields a single element that cannot be unpacked into two). -/
def splitOnceChar (sep : Char) : List Char → Option (List Char × List Char)
  | [] => none
  | c :: rest =>
    if c = sep then some ([], rest)
    else
      match splitOnceChar sep rest with
      | none => none
      | some (a, b) => some (c :: a, b)

/-- Embeds Python `s.split(sep)` for a single-character separator: exactly
the maximal runs between separator occurrences, keeping empty pieces
(`"".split("-") == [""]`, `"a-".split("-") == ["a", ""]`). -/
def splitCharList (sep : Char) : List Char → List (List Char)
  | [] => [[]]
  | c :: rest =>
    if c = sep then [] :: splitCharList sep rest
    else
      match splitCharList sep rest with
      | [] => [[c]]
      | h :: t => (c :: h) :: t

/-- Value of a list of decimal digit characters, most significant first. -/
def digitsToNat (s : List Char) : Nat :=
  s.foldl (fun acc c => acc * 10 + (c.toNat - 48)) 0

/-- Embeds Python `int(s)` on an unsigned decimal string: a nonempty
all-digit string parses to its value, anything else raises `ValueError`
(modelled as `.error ()`). -/
def pyIntCore (s : List Char) : Except Unit Nat :=
  if s ≠ [] ∧ s.all Char.isDigit then .ok (digitsToNat s) else .error ()

/-- Embeds Python `int(s)`: an optional single leading sign followed by a
nonempty run of decimal digits; anything else raises `ValueError`. -/
def pyIntList (s : List Char) : Except Unit Int :=
  if pyStartsWithChar s '-' then
    match pyIntCore (s.drop 1) with
    | .ok n => .ok (-(n : Int))
    | .error e => .error e
  else if pyStartsWithChar s '+' then
    match pyIntCore (s.drop 1) with
    | .ok n => .ok ((n : Int))
    | .error e => .error e
  else
    match pyIntCore s with
    | .ok n => .ok ((n : Int))
    | .error e => .error e

/-- Embeds Python `s.rstrip(c)` for a single character `c`. -/
def pyRstrip (s : String) (c : Char) : String :=
  String.mk ((s.data.reverse.dropWhile (fun a => a == c)).reverse)

/-- Embeds Python truthiness of an optional string attribute
(`if self.package_name:`): `None` and the empty string are falsy. -/
def pyTruthyStr : Option String → Bool
  | none => false
  | some s => s ≠ ""

/-! ### Path Resolver (`secure_path`, `pyramid/static.py` lines 234-242) -/

/-- Modelled from the spec: `quote_path_segment` is imported from
`pyramid.traversal`, whose source is not among the files at hand.  The spec
says each accepted segment is "re-encoded for safe inclusion in a URL/file
path (percent-encoding of path-unsafe characters)": unreserved characters
are kept verbatim and every other character is replaced by a `%`-prefixed
two-digit uppercase hex code of its byte value. -/
def quote_path_segment (s : String) : String :=
  String.join (s.data.map (fun c =>
    if c.isAlphanum || c = '-' || c = '_' || c = '.' || c = '~' then
      String.singleton c
    else
      String.mk ['%',
        (if c.toNat % 256 / 16 < 10 then Char.ofNat (48 + c.toNat % 256 / 16)
         else Char.ofNat (55 + c.toNat % 256 / 16)),
        (if c.toNat % 256 % 16 < 10 then Char.ofNat (48 + c.toNat % 256 % 16)
         else Char.ofNat (55 + c.toNat % 256 % 16))]))

/-- Embeds Python `s.startswith(c)` on a `String` for a one-character
prefix `c` (the only shape `secure_path` tests). -/
def pyStartsWith1 (s : String) (c : Char) : Bool :=
  pyStartsWithChar s.data c

/-- Embeds Python `s.endswith(c)` on a `String` for a one-character
suffix `c` (the only shape `static_view.__call__` tests). -/
def pyEndsWith1 (s : String) (c : Char) : Bool :=
  match s.data.getLast? with
  | none => false
  | some a => a == c

/-- Embeds `secure_path(path_tuple)`: reject any tuple containing an empty
segment or a segment starting with `.` or `/`; otherwise percent-encode the
segments and join them with `/`.  The `lru_cache` decorator memoizes a pure
function and does not change its value, so it is dropped in the embedding. -/
def secure_path (path_tuple : List String) : Option String :=
  if "" ∈ path_tuple then none
  else if path_tuple.any (fun item => pyStartsWith1 item '.' || pyStartsWith1 item '/') then
    none
  else some (String.intercalate "/" (path_tuple.map quote_path_segment))

/-! ### Range header parsing (`FileResponse._get_range`, lines 69-92) -/

/-- Embeds `FileResponse._get_range(content_length)`.  `range_header` is the
raw value of the `Range` request header (or `none` when absent).  `.ok none`
means "no usable range, serve the whole file"; `.error ()` models an
uncaught `ValueError` escaping from `split`-unpacking or `int()`. -/
def _get_range (range_header : Option (List Char)) (content_length : Int) :
    Except Unit (Option (Int × Int)) :=
  match range_header with
  | none => .ok none
  | some h =>
    -- Refuse to parse multiple byte ranges.
    if pyContainsChar h ',' then .ok none
    else
      -- unit, range_s = range_header.split('=', 1)
      match splitOnceChar '=' h with
      | none => .error ()
      | some (unit, range_s) =>
        if unit ≠ "bytes".data then .ok none
        else if pyStartsWithChar range_s '-' then
          -- suffix form: start = content_length - int(range_s[1:])
          match pyIntList (range_s.drop 1) with
          | .ok n => .ok (some (content_length - n, content_length))
          | .error e => .error e
        else
          -- start, end = map(int, range_s.split('-'))
          match splitCharList '-' range_s with
          | [a, b] =>
            match pyIntList a, pyIntList b with
            | .ok s, .ok e => .ok (some (s, e + 1))
            | .error e, _ => .error e
            | _, .error e => .error e
          | _ => .error ()

/-! ### FileResponse construction (`FileResponse.__init__`, lines 34-67) -/

/-- The request fields the responder reads: the parsed `If-Modified-Since`
timestamp and the raw `Range` header. -/
structure Request where
  if_modified_since : Option Int
  range_header : Option (List Char)
deriving Repr, DecidableEq

/-- The response fields `FileResponse.__init__` assigns, each `Option` so
that "header/field not set by this constructor" is observable (`none`).
`app_iter` records the arguments of the lazily-created `_file_iter`
generator: the parsed range (if any) and the chunk size. -/
structure FileResponseT where
  status : Int
  last_modified : Option Int
  content_range : Option String
  content_length : Option Int
  date : Option Int
  expires : Option Int
  content_type : Option String
  app_iter : Option (Option (Int × Int) × Nat)
deriving Repr, DecidableEq

/-- The condition of the conditional-GET short circuit (lines 41-45):
an `If-Modified-Since` header is present and the file's last-modified
time is less than or equal to it. -/
def notModifiedCheck (mtime : Int) (ims : Option Int) : Bool :=
  match ims with
  | some m => mtime ≤ m
  | none => false

/-- Embeds `FileResponse.__init__(path, request, expires, chunksize)`.
The filesystem reads are made explicit parameters: `bytes` is the file's
content (so `getsize(path) = bytes.length`), `mtime` its last-modified
time, `now` the value of `datetime.utcnow()`, and `ctype` the result of
`mimetypes.guess_type`.  `expires` is the optional cache duration.  The
result is `.error ()` when `_get_range` raises. -/
def FileResponse_init (bytes : List Nat) (mtime : Int) (request : Request)
    (expires : Option Int) (chunksize : Nat) (now : Int)
    (ctype : Option String) : Except Unit FileResponseT :=
  let base : FileResponseT :=
    { status := 200, last_modified := some mtime, content_range := none,
      content_length := none, date := none, expires := none,
      content_type := none, app_iter := none }
  if notModifiedCheck mtime request.if_modified_since then
    .ok { base with status := 304 }
  else
    let content_length : Int := bytes.length
    match _get_range request.range_header content_length with
    | .error e => .error e
    | .ok request_range =>
      match request_range with
      | some (start, end_) =>
        if start ≥ content_length then
          .ok { base with status := 416 }
        else
          .ok { base with
            status := 206,
            content_range := some ("bytes " ++ toString start ++ "-"
              ++ toString (end_ - 1) ++ "/" ++ toString content_length),
            content_length := some (end_ - start),
            date := some now,
            app_iter := some (some (start, end_), chunksize),
            content_type := ctype,
            expires := expires.map (fun d => now + d) }
      | none =>
        .ok { base with
          status := 200,
          date := some now,
          app_iter := some (none, chunksize),
          content_type := ctype,
          content_length := some content_length,
          expires := expires.map (fun d => now + d) }

/-! ### Streaming iterator (`_file_iter`, lines 203-232)

The Python generator is embedded as an explicit state machine.  `GenState`
holds the unread suffix of the file (the handle's position is where `rest`
begins), the `ByteReader.bytes_left` counter in range mode (`none` in
full-file mode), and whether the `finally:` block has run `file.close()`.
Python 2 file semantics apply: `file.read(n)` with `n < 0` reads to EOF,
`file.read(0)` returns the empty string. -/

structure GenState where
  rest : List Nat
  bytes_left : Option Int
  closed : Bool
deriving Repr, DecidableEq

/-- One call of the generator's `get_bytes` closure: in range mode
`file.read(min(self.bytes_left, chunksize))` with the `bytes_left`
bookkeeping, in full mode `file.read(chunksize)`. -/
def get_bytes (chunksize : Nat) (st : GenState) : List Nat × GenState :=
  match st.bytes_left with
  | none =>
    let b := st.rest.take chunksize
    (b, { st with rest := st.rest.drop b.length })
  | some left =>
    let n : Int := min left (chunksize : Int)
    let b := if n < 0 then st.rest else st.rest.take n.toNat
    (b, { st with rest := st.rest.drop b.length,
                  bytes_left := some (left - b.length) })

theorem get_bytes_rest_lt (chunksize : Nat) (st : GenState)
    (h : (get_bytes chunksize st).1 ≠ []) :
    (get_bytes chunksize st).2.rest.length < st.rest.length := by
  unfold get_bytes at h ⊢
  rcases hm : st.bytes_left with _ | left <;> simp only [hm] at h ⊢
  · have h1 : (st.rest.take chunksize).length ≤ st.rest.length := by
      simp [List.length_take]
    have h2 : 0 < (st.rest.take chunksize).length :=
      List.length_pos.mpr h
    simp only [List.length_drop]
    omega
  · set b := if min left (chunksize : Int) < 0 then st.rest
             else st.rest.take (min left (chunksize : Int)).toNat with hb
    have h2 : 0 < b.length := List.length_pos.mpr h
    have h1 : b.length ≤ st.rest.length := by
      rw [hb]; split
      · exact Nat.le_refl _
      · simp [List.length_take]
    simp only [List.length_drop]
    omega

/-- Draining the generator: the chunk list it yields (in order) together
with its final state.  `while buf:` stops at the first empty read, at which
point the `finally:` block closes the file handle. -/
def runGen (chunksize : Nat) (st : GenState) : List (List Nat) × GenState :=
  if h : (get_bytes chunksize st).1 = [] then
    ([], { (get_bytes chunksize st).2 with closed := true })
  else
    ((get_bytes chunksize st).1 :: (runGen chunksize (get_bytes chunksize st).2).1,
     (runGen chunksize (get_bytes chunksize st).2).2)
termination_by st.rest.length
decreasing_by
  all_goals exact get_bytes_rest_lt chunksize st h

/-- Abandoning the generator early: Python delivers `GeneratorExit` at the
paused `yield` (via `gen.close()` or garbage collection), and the
`finally:` block in `_file_iter` runs `file.close()`. -/
def genClose (st : GenState) : GenState :=
  { st with closed := true }

/-- Realizes the lazily-created `_file_iter(path, chunksize, content_range)`
generator.  In range mode the generator first runs `file.seek(start)`
(raising on a negative offset, modelled `.error ()`; seeking is embedded as
dropping the first `start` bytes), then reads through `ByteReader(end -
start)`; in full mode it reads `chunksize` bytes at a time from offset 0. -/
def _file_iter (bytes : List Nat) (chunksize : Nat)
    (content_range : Option (Int × Int)) :
    Except Unit (List (List Nat) × GenState) :=
  match content_range with
  | none => .ok (runGen chunksize ⟨bytes, none, false⟩)
  | some (start, end_) =>
    if start < 0 then .error ()
    else .ok (runGen chunksize
      ⟨bytes.drop start.toNat, some (end_ - start), false⟩)

/-! ### The view callable (`static_view.__call__` and
`static_view.add_slash_redirect`, lines 158-201) -/

/-- The three outcomes of `static_view.__call__`: a 404, a 301 redirect, or
a `FileResponse` built from a filepath (building it is what opens the
file). -/
inductive ViewResult where
  | httpNotFound (detail : String)
  | httpMovedPermanently (location : String)
  | fileResponse (filepath : String)
deriving Repr, DecidableEq

/-- Embeds `static_view.add_slash_redirect(request)`: redirect to
`path_url + '/'`, re-attaching the query string when it is nonempty. -/
def add_slash_redirect (path_url query_string : String) : ViewResult :=
  let url := path_url ++ "/"
  if query_string ≠ "" then
    ViewResult.httpMovedPermanently (url ++ "?" ++ query_string)
  else
    ViewResult.httpMovedPermanently url

/-- Embeds `static_view.__call__(context, request)`.  The external
collaborators are passed as functions: `resource_isdir`, `resource_exists`
and `resource_filename` for the package branch (`pkg_resources`), `isdir`
and `path_exists` for the filesystem branch, `normjoin` for
`normcase(normpath(join(...)))` and `osjoin` for `join(...)`.  `path_tuple`
is the traversal path (from `request.subpath` or
`traversal_path(request.path_info)`), `url` is `request.url`. -/
def static_view_call (package_name : Option String)
    (docroot norm_docroot index : String)
    (resource_isdir resource_exists : String → String → Bool)
    (resource_filename : String → String → String)
    (isdir path_exists : String → Bool)
    (normjoin osjoin : String → String → String)
    (path_tuple : List String) (url path_url query_string : String) :
    ViewResult :=
  match secure_path path_tuple with
  | none => ViewResult.httpNotFound ("Out of bounds: " ++ url)
  | some path =>
    if pyTruthyStr package_name then
      -- package resource branch
      let pkg := package_name.getD ""
      let resource_path := pyRstrip docroot '/' ++ "/" ++ path
      if resource_isdir pkg resource_path then
        if ¬ pyEndsWith1 path_url '/' then
          add_slash_redirect path_url query_string
        else
          let resource_path2 := pyRstrip resource_path '/' ++ "/" ++ index
          if ¬ resource_exists pkg resource_path2 then
            ViewResult.httpNotFound url
          else ViewResult.fileResponse (resource_filename pkg resource_path2)
      else if ¬ resource_exists pkg resource_path then
        ViewResult.httpNotFound url
      else ViewResult.fileResponse (resource_filename pkg resource_path)
    else
      -- filesystem branch
      let filepath := normjoin norm_docroot path
      if isdir filepath then
        if ¬ pyEndsWith1 path_url '/' then
          add_slash_redirect path_url query_string
        else
          let filepath2 := osjoin filepath index
          if ¬ path_exists filepath2 then ViewResult.httpNotFound url
          else ViewResult.fileResponse filepath2
      else if ¬ path_exists filepath then ViewResult.httpNotFound url
      else ViewResult.fileResponse filepath

/-! ### Helper lemmas: header parsing -/

theorem pyContainsChar_append (a b : List Char) (x : Char) :
    pyContainsChar (a ++ b) x = (pyContainsChar a x || pyContainsChar b x) := by
  simp [pyContainsChar]

theorem pyContainsChar_cons (c : Char) (l : List Char) (x : Char) :
    pyContainsChar (c :: l) x = ((c == x) || pyContainsChar l x) := by
  simp [pyContainsChar]

theorem pyContainsChar_of_digits (l : List Char) (x : Char)
    (hx : x.isDigit = false) (h : l.all Char.isDigit = true) :
    pyContainsChar l x = false := by
  simp only [pyContainsChar, List.any_eq_false]
  intro c hc
  have hcd : c.isDigit = true := List.all_eq_true.mp h c hc
  simp only [beq_iff_eq]
  intro he
  rw [he, hx] at hcd
  exact Bool.false_ne_true hcd

theorem head_digit_ne (c : Char) (l : List Char) (x : Char)
    (hx : x.isDigit = false) (h : (c :: l).all Char.isDigit = true) :
    (c == x) = false := by
  have hcd : c.isDigit = true := by
    simp only [List.all_cons, Bool.and_eq_true] at h
    exact h.1
  simp only [beq_eq_false_iff_ne, ne_eq]
  intro he
  rw [he, hx] at hcd
  exact Bool.false_ne_true hcd

theorem splitCharList_no_sep (sep : Char) (l : List Char)
    (h : ∀ c ∈ l, (c == sep) = false) : splitCharList sep l = [l] := by
  induction l with
  | nil => rfl
  | cons c rest ih =>
    have hc : ¬ (c = sep) := by
      simpa using h c (List.mem_cons_self c rest)
    have hr : splitCharList sep rest = [rest] :=
      ih (fun x hx => h x (List.mem_cons_of_mem c hx))
    simp [splitCharList, hc, hr]

theorem splitCharList_append_sep (sep : Char) (a b : List Char)
    (h : ∀ c ∈ a, (c == sep) = false) :
    splitCharList sep (a ++ sep :: b) = a :: splitCharList sep b := by
  induction a with
  | nil =>
    simp [splitCharList]
  | cons c rest ih =>
    have hc : ¬ (c = sep) := by
      simpa using h c (List.mem_cons_self c rest)
    have hr := ih (fun x hx => h x (List.mem_cons_of_mem c hx))
    simp [splitCharList, hc, hr]

theorem splitCharList_ne_nil (sep : Char) (l : List Char) :
    splitCharList sep l ≠ [] := by
  induction l with
  | nil => simp [splitCharList]
  | cons c rest ih =>
    simp only [splitCharList]
    split
    · simp
    · revert ih
      rcases splitCharList sep rest with _ | ⟨h, t⟩ <;> simp

theorem pyIntCore_digits (l : List Char) (hne : l ≠ [])
    (hd : l.all Char.isDigit = true) : pyIntCore l = .ok (digitsToNat l) := by
  simp [pyIntCore, hne, hd]

theorem pyIntList_digits (l : List Char) (hne : l ≠ [])
    (hd : l.all Char.isDigit = true) :
    pyIntList l = .ok ((digitsToNat l : Int)) := by
  rcases l with _ | ⟨c, rest⟩
  · exact absurd rfl hne
  · have h1 : pyStartsWithChar (c :: rest) '-' = false :=
      head_digit_ne c rest '-' (by decide) hd
    have h2 : pyStartsWithChar (c :: rest) '+' = false :=
      head_digit_ne c rest '+' (by decide) hd
    simp only [pyIntList, h1, h2, Bool.false_eq_true, if_false,
      pyIntCore_digits _ hne hd]

theorem digits_ne_char (l : List Char) (x : Char) (hx : x.isDigit = false)
    (hd : l.all Char.isDigit = true) : ∀ c ∈ l, (c == x) = false := by
  intro c hc
  have hcd := List.all_eq_true.mp hd c hc
  simp only [beq_eq_false_iff_ne, ne_eq]
  intro he
  rw [he, hx] at hcd
  exact Bool.false_ne_true hcd

theorem pyStartsWithChar_append_digits (l suffix : List Char) (x : Char)
    (hx : x.isDigit = false) (hne : l ≠ []) (hd : l.all Char.isDigit = true) :
    pyStartsWithChar (l ++ suffix) x = false := by
  rcases l with _ | ⟨c, r⟩
  · exact absurd rfl hne
  · simpa [pyStartsWithChar] using head_digit_ne c r x hx hd

theorem splitOnceChar_bytes_eq (rest : List Char) :
    splitOnceChar '=' ('b' :: 'y' :: 't' :: 'e' :: 's' :: '=' :: rest) =
      some (['b', 'y', 't', 'e', 's'], rest) := by
  rfl

/-- A `Range` header of the shape `bytes=A-B` with decimal numerals `A`
and `B` parses to the half-open pair `(A, B + 1)`. -/
theorem getRange_two_numbers (a b : List Char) (S : Int)
    (ha : a ≠ []) (hda : a.all Char.isDigit = true)
    (hb : b ≠ []) (hdb : b.all Char.isDigit = true) :
    _get_range (some ("bytes=".data ++ (a ++ '-' :: b))) S =
      .ok (some ((digitsToNat a : Int), (digitsToNat b : Int) + 1)) := by
  have hcomma : pyContainsChar
      ('b' :: 'y' :: 't' :: 'e' :: 's' :: '=' :: (a ++ '-' :: b)) ',' = false := by
    simp only [pyContainsChar_append, pyContainsChar_cons,
      pyContainsChar_of_digits a ',' (by decide) hda,
      pyContainsChar_of_digits b ',' (by decide) hdb]
    decide
  have hsw : pyStartsWithChar (a ++ '-' :: b) '-' = false :=
    pyStartsWithChar_append_digits a ('-' :: b) '-' (by decide) ha hda
  have hsplit : splitCharList '-' (a ++ '-' :: b) = [a, b] := by
    rw [splitCharList_append_sep '-' a b (digits_ne_char a '-' (by decide) hda),
        splitCharList_no_sep '-' b (digits_ne_char b '-' (by decide) hdb)]
  simp only [_get_range, hcomma, Bool.false_eq_true, if_false,
    List.cons_append, List.nil_append, splitOnceChar_bytes_eq, ne_eq,
    not_true_eq_false, hsw, hsplit,
    pyIntList_digits a ha hda, pyIntList_digits b hb hdb, if_false]

/-- A `Range` header of the shape `bytes=-N` with a decimal numeral `N`
parses to the suffix pair `(content_length - N, content_length)`. -/
theorem getRange_suffix (n : List Char) (S : Int)
    (hn : n ≠ []) (hdn : n.all Char.isDigit = true) :
    _get_range (some ("bytes=".data ++ ('-' :: n))) S =
      .ok (some (S - (digitsToNat n : Int), S)) := by
  have hcomma : pyContainsChar
      ('b' :: 'y' :: 't' :: 'e' :: 's' :: '=' :: '-' :: n) ',' = false := by
    simp only [pyContainsChar_append, pyContainsChar_cons,
      pyContainsChar_of_digits n ',' (by decide) hdn]
    decide
  have hsw : pyStartsWithChar ('-' :: n) '-' = true := by
    simp [pyStartsWithChar]
  simp only [_get_range, hcomma, Bool.false_eq_true, if_false,
    List.cons_append, List.nil_append, splitOnceChar_bytes_eq, ne_eq,
    not_true_eq_false, hsw, if_true,
    List.drop_succ_cons, List.drop_zero, pyIntList_digits n hn hdn]

/-! ### Helper lemmas: response construction -/

theorem FileResponse_init_304 (bytes : List Nat) (mtime : Int) (request : Request)
    (expires : Option Int) (chunksize : Nat) (now : Int) (ctype : Option String)
    (hnm : notModifiedCheck mtime request.if_modified_since = true) :
    FileResponse_init bytes mtime request expires chunksize now ctype =
      .ok { status := 304, last_modified := some mtime, content_range := none,
            content_length := none, date := none, expires := none,
            content_type := none, app_iter := none } := by
  simp [FileResponse_init, hnm]

theorem FileResponse_init_416 (bytes : List Nat) (mtime : Int) (request : Request)
    (expires : Option Int) (chunksize : Nat) (now : Int) (ctype : Option String)
    (start end_ : Int)
    (hnm : notModifiedCheck mtime request.if_modified_since = false)
    (hr : _get_range request.range_header (bytes.length : Int) =
      .ok (some (start, end_)))
    (hs : (bytes.length : Int) ≤ start) :
    FileResponse_init bytes mtime request expires chunksize now ctype =
      .ok { status := 416, last_modified := some mtime, content_range := none,
            content_length := none, date := none, expires := none,
            content_type := none, app_iter := none } := by
  simp [FileResponse_init, hnm, hr, hs]

theorem FileResponse_init_206 (bytes : List Nat) (mtime : Int) (request : Request)
    (expires : Option Int) (chunksize : Nat) (now : Int) (ctype : Option String)
    (start end_ : Int)
    (hnm : notModifiedCheck mtime request.if_modified_since = false)
    (hr : _get_range request.range_header (bytes.length : Int) =
      .ok (some (start, end_)))
    (hs : start < (bytes.length : Int)) :
    FileResponse_init bytes mtime request expires chunksize now ctype =
      .ok { status := 206, last_modified := some mtime,
            content_range := some ("bytes " ++ toString start ++ "-"
              ++ toString (end_ - 1) ++ "/" ++ toString ((bytes.length : Int))),
            content_length := some (end_ - start),
            date := some now, expires := expires.map (fun d => now + d),
            content_type := ctype,
            app_iter := some (some (start, end_), chunksize) } := by
  have hs' : ¬ ((bytes.length : Int) ≤ start) := by omega
  simp [FileResponse_init, hnm, hr, hs']

theorem FileResponse_init_200 (bytes : List Nat) (mtime : Int) (request : Request)
    (expires : Option Int) (chunksize : Nat) (now : Int) (ctype : Option String)
    (hnm : notModifiedCheck mtime request.if_modified_since = false)
    (hr : _get_range request.range_header (bytes.length : Int) = .ok none) :
    FileResponse_init bytes mtime request expires chunksize now ctype =
      .ok { status := 200, last_modified := some mtime, content_range := none,
            content_length := some ((bytes.length : Int)),
            date := some now, expires := expires.map (fun d => now + d),
            content_type := ctype, app_iter := some (none, chunksize) } := by
  simp [FileResponse_init, hnm, hr]

theorem FileResponse_init_raises (bytes : List Nat) (mtime : Int) (request : Request)
    (expires : Option Int) (chunksize : Nat) (now : Int) (ctype : Option String)
    (hnm : notModifiedCheck mtime request.if_modified_since = false)
    (hr : _get_range request.range_header (bytes.length : Int) = .error ()) :
    FileResponse_init bytes mtime request expires chunksize now ctype =
      .error () := by
  simp [FileResponse_init, hnm, hr]

/-! ### Helper lemmas: the streaming generator -/

theorem runGen_unfold (chunksize : Nat) (st : GenState) :
    runGen chunksize st =
      if (get_bytes chunksize st).1 = [] then
        ([], { (get_bytes chunksize st).2 with closed := true })
      else
        ((get_bytes chunksize st).1 ::
           (runGen chunksize (get_bytes chunksize st).2).1,
         (runGen chunksize (get_bytes chunksize st).2).2) := by
  rw [runGen]
  exact dite_eq_ite

theorem get_bytes_none_eq (chunksize : Nat) (l : List Nat) (cl : Bool) :
    get_bytes chunksize ⟨l, none, cl⟩ =
      (l.take chunksize, ⟨l.drop (l.take chunksize).length, none, cl⟩) := by
  simp [get_bytes]

theorem get_bytes_some_eq (chunksize : Nat) (l : List Nat) (left : Int)
    (cl : Bool) (h : 0 ≤ left) :
    get_bytes chunksize ⟨l, some left, cl⟩ =
      (l.take (min left (chunksize : Int)).toNat,
       ⟨l.drop (l.take (min left (chunksize : Int)).toNat).length,
        some (left - (l.take (min left (chunksize : Int)).toNat).length),
        cl⟩) := by
  have hn : ¬ (min left (chunksize : Int) < 0) := by omega
  simp [get_bytes, hn]

theorem take_append_drop_length_take {α : Type} (l : List α) (n : Nat) :
    l.take n ++ l.drop (l.take n).length = l := by
  have h1 : l.take n = l.take (min n l.length) := by
    rw [List.take_eq_take]
    rw [min_assoc, min_self]
  rw [List.length_take, h1, List.take_append_drop]

theorem runGen_closed_aux (chunksize : Nat) :
    ∀ (n : Nat) (st : GenState), st.rest.length = n →
      (runGen chunksize st).2.closed = true := by
  intro n
  induction n using Nat.strong_induction_on with
  | _ n ih =>
    intro st hst
    rw [runGen_unfold]
    split
    · rfl
    · rename_i hne
      exact ih _ (hst ▸ get_bytes_rest_lt chunksize st hne) _ rfl

/-- Whatever state the generator starts in, by the time `while buf:` falls
through, the `finally:` block has closed the file handle. -/
theorem runGen_closed (chunksize : Nat) (st : GenState) :
    (runGen chunksize st).2.closed = true :=
  runGen_closed_aux chunksize st.rest.length st rfl

theorem runGen_none_join_aux (chunksize : Nat) (hC : 0 < chunksize) :
    ∀ (n : Nat) (l : List Nat), l.length = n →
      (runGen chunksize ⟨l, none, false⟩).1.flatten = l := by
  intro n
  induction n using Nat.strong_induction_on with
  | _ n ih =>
    intro l hl
    rw [runGen_unfold, get_bytes_none_eq]
    by_cases hnil : l = []
    · subst hnil
      simp
    · have htake : l.take chunksize ≠ [] := by
        simp only [ne_eq, List.take_eq_nil_iff]
        push_neg
        constructor
        · omega
        · exact hnil
      rw [if_neg htake]
      have hlen : 0 < (l.take chunksize).length := List.length_pos.mpr htake
      have htle : (l.take chunksize).length ≤ l.length := by
        rw [List.length_take]
        exact Nat.min_le_right _ _
      have hdrop : (l.drop (l.take chunksize).length).length < n := by
        rw [List.length_drop]
        omega
      simp only [List.flatten_cons]
      rw [ih _ hdrop _ rfl, take_append_drop_length_take]

/-- Full-file mode: the chunks concatenate back to the whole file. -/
theorem runGen_none_flatten (chunksize : Nat) (hC : 0 < chunksize)
    (l : List Nat) :
    (runGen chunksize ⟨l, none, false⟩).1.flatten = l :=
  runGen_none_join_aux chunksize hC l.length l rfl

theorem runGen_none_length_aux (chunksize : Nat) (hC : 0 < chunksize) :
    ∀ (n : Nat) (l : List Nat), l.length = n →
      (runGen chunksize ⟨l, none, false⟩).1.length =
        (l.length + chunksize - 1) / chunksize := by
  intro n
  induction n using Nat.strong_induction_on with
  | _ n ih =>
    intro l hl
    rw [runGen_unfold, get_bytes_none_eq]
    by_cases hnil : l = []
    · subst hnil
      have h0 : (chunksize - 1) / chunksize = 0 :=
        Nat.div_eq_of_lt (by omega)
      simp [h0]
    · have htake : l.take chunksize ≠ [] := by
        simp only [ne_eq, List.take_eq_nil_iff]
        push_neg
        constructor
        · omega
        · exact hnil
      rw [if_neg htake]
      have hlen0 : 0 < l.length := List.length_pos.mpr hnil
      have hlen : (l.take chunksize).length = min chunksize l.length :=
        List.length_take _ _
      have hlenpos : 0 < (l.take chunksize).length := List.length_pos.mpr htake
      have htle : (l.take chunksize).length ≤ l.length := by
        rw [hlen]
        exact Nat.min_le_right _ _
      have hdrop : (l.drop (l.take chunksize).length).length < n := by
        rw [List.length_drop]
        omega
      simp only [List.length_cons]
      rw [ih _ hdrop _ rfl]
      rw [List.length_drop, hlen]
      rcases le_or_lt chunksize l.length with hcle | hclt
      · have hmin : min chunksize l.length = chunksize := by
          rw [Nat.min_def]
          simp [hcle]
        rw [hmin]
        have h2 : l.length - chunksize + chunksize - 1 + chunksize
            = l.length + chunksize - 1 := by omega
        calc (l.length - chunksize + chunksize - 1) / chunksize + 1
            = (l.length - chunksize + chunksize - 1 + chunksize) / chunksize := by
              rw [Nat.add_div_right _ hC]
          _ = (l.length + chunksize - 1) / chunksize := by rw [h2]
      · have hmin : min chunksize l.length = l.length := by
          rw [Nat.min_def]
          split <;> omega
        rw [hmin]
        have h3 : (l.length - l.length + chunksize - 1) / chunksize = 0 :=
          Nat.div_eq_of_lt (by omega)
        have h4 : (l.length + chunksize - 1) / chunksize = 1 := by
          apply Nat.div_eq_of_lt_le <;> omega
        omega

/-- Full-file mode: exactly `ceil(N / chunksize)` chunks are produced. -/
theorem runGen_none_length (chunksize : Nat) (hC : 0 < chunksize)
    (l : List Nat) :
    (runGen chunksize ⟨l, none, false⟩).1.length =
      (l.length + chunksize - 1) / chunksize :=
  runGen_none_length_aux chunksize hC l.length l rfl

theorem runGen_none_sizes_aux (chunksize : Nat) :
    ∀ (n : Nat) (l : List Nat), l.length = n →
      ∀ b ∈ (runGen chunksize ⟨l, none, false⟩).1, b.length ≤ chunksize := by
  intro n
  induction n using Nat.strong_induction_on with
  | _ n ih =>
    intro l hl
    rw [runGen_unfold, get_bytes_none_eq]
    split
    · simp
    · rename_i hne
      have hlenpos : 0 < (l.take chunksize).length := List.length_pos.mpr hne
      have htle : (l.take chunksize).length ≤ l.length := by
        rw [List.length_take]
        exact Nat.min_le_right _ _
      have hdrop : (l.drop (l.take chunksize).length).length < n := by
        rw [List.length_drop]
        omega
      intro b hb
      rcases List.mem_cons.mp hb with hb1 | hb2
      · subst hb1
        rw [List.length_take]
        exact Nat.min_le_left _ _
      · exact ih _ hdrop _ rfl b hb2

/-- Full-file mode: every chunk holds at most `chunksize` bytes. -/
theorem runGen_none_sizes (chunksize : Nat) (l : List Nat) :
    ∀ b ∈ (runGen chunksize ⟨l, none, false⟩).1, b.length ≤ chunksize :=
  runGen_none_sizes_aux chunksize l.length l rfl

theorem runGen_some_join_aux (chunksize : Nat) (hC : 0 < chunksize) :
    ∀ (n : Nat) (l : List Nat) (left : Int), l.length = n → 0 ≤ left →
      (runGen chunksize ⟨l, some left, false⟩).1.flatten =
        l.take left.toNat := by
  intro n
  induction n using Nat.strong_induction_on with
  | _ n ih =>
    intro l left hl hleft
    rw [runGen_unfold, get_bytes_some_eq chunksize l left false hleft]
    have hm1 : min left (chunksize : Int) ≤ left := min_le_left _ _
    have hm2 : min left (chunksize : Int) ≤ (chunksize : Int) := min_le_right _ _
    have hm3 : 0 ≤ min left (chunksize : Int) := le_min hleft (by positivity)
    have hCi : (1 : Int) ≤ (chunksize : Int) := by exact_mod_cast hC
    set k := (min left (chunksize : Int)).toNat with hkdef
    by_cases hb : l.take k = []
    · rw [if_pos hb]
      rcases List.take_eq_nil_iff.mp hb with hk0 | hl0
      · have hmin0 : min left (chunksize : Int) = 0 := by omega
        have hleft0 : left = 0 := by
          rcases min_choice left (chunksize : Int) with hc | hc <;> omega
        simp [hleft0]
      · subst hl0
        simp
    · rw [if_neg hb]
      set j := (l.take k).length with hjdef
      have hjmin : j = min k l.length := by
        rw [hjdef, List.length_take]
      have hjpos : 0 < j := List.length_pos.mpr hb
      have hjk : j ≤ k := by omega
      have hjlen : j ≤ l.length := by omega
      have hkle : k ≤ left.toNat := by omega
      have hleft' : 0 ≤ left - (j : Int) := by omega
      have hdrop : (l.drop j).length < n := by
        rw [List.length_drop]
        omega
      simp only [List.flatten_cons]
      rw [ih _ hdrop _ _ rfl hleft']
      have htk : l.take k = l.take j := by
        rw [List.take_eq_take, hjmin, min_assoc, min_self]
      have harg : left.toNat = j + (left - (j : Int)).toNat := by omega
      conv_rhs => rw [harg]
      rw [htk, List.take_add]

/-- Range mode with a nonnegative `bytes_left` budget: the chunks
concatenate to the first `left` bytes of the unread suffix (fewer when the
file ends first). -/
theorem runGen_some_flatten (chunksize : Nat) (hC : 0 < chunksize)
    (l : List Nat) (left : Int) (hleft : 0 ≤ left) :
    (runGen chunksize ⟨l, some left, false⟩).1.flatten = l.take left.toNat :=
  runGen_some_join_aux chunksize hC l.length l left rfl hleft

theorem splitOnceChar_not_contains (sep : Char) (l : List Char)
    (h : pyContainsChar l sep = false) : splitOnceChar sep l = none := by
  induction l with
  | nil => rfl
  | cons c rest ih =>
    rw [pyContainsChar_cons] at h
    have hc : ¬ (c = sep) := by
      intro he
      simp [he] at h
    have hr : splitOnceChar sep rest = none := by
      apply ih
      revert h
      rcases pyContainsChar rest sep <;> simp
    simp [splitOnceChar, hc, hr]

theorem splitOnceChar_append (sep : Char) (u rest : List Char)
    (hu : pyContainsChar u sep = false) :
    splitOnceChar sep (u ++ sep :: rest) = some (u, rest) := by
  induction u with
  | nil =>
    simp [splitOnceChar]
  | cons c urest ih =>
    rw [pyContainsChar_cons] at hu
    have hc : ¬ (c = sep) := by
      intro he
      simp [he] at hu
    have hr : splitOnceChar sep (urest ++ sep :: rest) = some (urest, rest) := by
      apply ih
      revert hu
      rcases pyContainsChar urest sep <;> simp
    simp [splitOnceChar, hc, hr]

/-! ### Claim C2: the If-Modified-Since conditional short circuit -/

/-- C2: for a file with last-modified time `mtime` and a request carrying
`If-Modified-Since = M`: when `mtime ≤ M` the responder terminates with
status 304, empty body (`app_iter` never set) and none of the later
headers, whatever the `Range` header holds (range parsing is
short-circuited); when `M < mtime` the responder behaves exactly as if no
`If-Modified-Since` header had been sent, i.e. proceeds to the full
200/206 flow. -/
theorem C2_conditional_get (bytes : List Nat) (mtime M : Int)
    (rng : Option (List Char)) (expires : Option Int) (chunksize : Nat)
    (now : Int) (ctype : Option String) :
    (mtime ≤ M →
      FileResponse_init bytes mtime ⟨some M, rng⟩ expires chunksize now ctype =
        .ok { status := 304, last_modified := some mtime, content_range := none,
              content_length := none, date := none, expires := none,
              content_type := none, app_iter := none }) ∧
    (M < mtime →
      FileResponse_init bytes mtime ⟨some M, rng⟩ expires chunksize now ctype =
        FileResponse_init bytes mtime ⟨none, rng⟩ expires chunksize now ctype) := by
  constructor
  · intro h
    apply FileResponse_init_304
    simp [notModifiedCheck, h]
  · intro h
    have h1 : notModifiedCheck mtime (Request.mk (some M) rng).if_modified_since
        = false := by
      simp [notModifiedCheck]
      omega
    have h2 : notModifiedCheck mtime (Request.mk none rng).if_modified_since
        = false := rfl
    simp [FileResponse_init, h1, h2]

theorem C2_conditional_get_witness :
    (FileResponse_init [0, 1] 5 ⟨some 7, some "garbage".data⟩ none 4 0 none =
      .ok { status := 304, last_modified := some 5, content_range := none,
            content_length := none, date := none, expires := none,
            content_type := none, app_iter := none }) ∧
    (FileResponse_init [0, 1] 9 ⟨some 7, none⟩ none 4 0 none =
      FileResponse_init [0, 1] 9 ⟨none, none⟩ none 4 0 none) :=
  ⟨(C2_conditional_get [0, 1] 5 7 (some "garbage".data) none 4 0 none).1
      (by norm_num),
   (C2_conditional_get [0, 1] 9 7 none none 4 0 none).2 (by norm_num)⟩

/-! ### Claim C3: path resolution -/

/-- C3: `secure_path` returns `none` (rejected) exactly when some segment
is empty or starts with `.` or `/`; on every accepted tuple it returns the
percent-encoded segments joined with `/`; and, being a pure function (the
LRU cache only memoizes), the same input yields the same output across
calls. -/
theorem C3_path_resolution (ts : List String) :
    (secure_path ts = none ↔
      "" ∈ ts ∨ ∃ x ∈ ts, pyStartsWith1 x '.' = true ∨ pyStartsWith1 x '/' = true) ∧
    (secure_path ts ≠ none →
      secure_path ts =
        some (String.intercalate "/" (ts.map quote_path_segment))) ∧
    secure_path ts = secure_path ts := by
  refine ⟨?_, ?_, rfl⟩
  · have hmain : secure_path ts = none ↔
        ("" ∈ ts ∨
          ts.any (fun item => pyStartsWith1 item '.' || pyStartsWith1 item '/') = true) := by
      unfold secure_path
      by_cases h1 : "" ∈ ts <;>
        by_cases h2 :
          ts.any (fun item => pyStartsWith1 item '.' || pyStartsWith1 item '/') = true <;>
        simp [h1, h2]
    rw [hmain]
    simp [List.any_eq_true]
  · intro hne
    unfold secure_path at hne ⊢
    by_cases h1 : "" ∈ ts
    · simp [h1] at hne
    · by_cases h2 :
        ts.any (fun item => pyStartsWith1 item '.' || pyStartsWith1 item '/') = true
      · simp [h1, h2] at hne
      · simp [h1, h2]

theorem C3_path_resolution_witness :
    secure_path ["a", "b"] ≠ none ∧
    secure_path ["a", "b"] =
      some (String.intercalate "/" (["a", "b"].map quote_path_segment)) :=
  ⟨by decide, (C3_path_resolution ["a", "b"]).2.1 (by decide)⟩

/-! ### Claim C4: unsatisfiable ranges -/

/-- C4: whenever the Range header parses to a pair whose start is at least
the file size, the responder terminates with status 416 and an empty body,
setting none of Content-Range, Content-Type, Content-Length, Date or
Expires. -/
theorem C4_range_not_satisfiable (bytes : List Nat) (mtime : Int)
    (request : Request) (expires : Option Int) (chunksize : Nat) (now : Int)
    (ctype : Option String) (start end_ : Int)
    (hnm : notModifiedCheck mtime request.if_modified_since = false)
    (hr : _get_range request.range_header (bytes.length : Int) =
      .ok (some (start, end_)))
    (hs : (bytes.length : Int) ≤ start) :
    FileResponse_init bytes mtime request expires chunksize now ctype =
      .ok { status := 416, last_modified := some mtime, content_range := none,
            content_length := none, date := none, expires := none,
            content_type := none, app_iter := none } :=
  FileResponse_init_416 bytes mtime request expires chunksize now ctype
    start end_ hnm hr hs

theorem C4_range_not_satisfiable_witness :
    FileResponse_init [0, 1, 2, 3, 4, 5, 6, 7, 8, 9] 0
      ⟨none, some "bytes=2000-3000".data⟩ none 4 0 none =
      .ok { status := 416, last_modified := some 0, content_range := none,
            content_length := none, date := none, expires := none,
            content_type := none, app_iter := none } :=
  C4_range_not_satisfiable [0, 1, 2, 3, 4, 5, 6, 7, 8, 9] 0
    ⟨none, some "bytes=2000-3000".data⟩ none 4 0 none 2000 3001
    rfl rfl (by decide)

/-! ### Claim C7: multi-range and non-bytes units are ignored -/

/-- C7: a Range header that names multiple comma-separated ranges, or
whose unit before the `=` is not `bytes`, is treated as absent: the
responder returns a plain 200 with `Content-Length` equal to the file
size, no `Content-Range`, and the full-file iterator, whose chunks
concatenate to the complete file. -/
theorem C7_multirange_ignored (bytes : List Nat) (mtime : Int)
    (ims : Option Int) (hdr : List Char) (expires : Option Int)
    (chunksize : Nat) (now : Int) (ctype : Option String)
    (hnm : notModifiedCheck mtime ims = false)
    (hC : 0 < chunksize)
    (hform : pyContainsChar hdr ',' = true ∨
      ∃ u rest, hdr = u ++ '=' :: rest ∧ pyContainsChar u '=' = false ∧
        u ≠ "bytes".data) :
    FileResponse_init bytes mtime ⟨ims, some hdr⟩ expires chunksize now ctype =
      .ok { status := 200, last_modified := some mtime, content_range := none,
            content_length := some ((bytes.length : Int)), date := some now,
            expires := expires.map (fun d => now + d), content_type := ctype,
            app_iter := some (none, chunksize) } ∧
    (_file_iter bytes chunksize none).map (fun r => r.1.flatten) =
      .ok bytes := by
  have hgr : _get_range (some hdr) (bytes.length : Int) = .ok none := by
    rcases hform with hcomma | ⟨u, rest, hdef, hnoeq, hunit⟩
    · simp [_get_range, hcomma]
    · subst hdef
      by_cases hc : pyContainsChar (u ++ '=' :: rest) ',' = true
      · simp [_get_range, hc]
      · simp [_get_range, hc, splitOnceChar_append '=' u rest hnoeq, hunit]
  constructor
  · exact FileResponse_init_200 bytes mtime ⟨ims, some hdr⟩ expires chunksize
      now ctype hnm hgr
  · simp [_file_iter, Except.map, runGen_none_flatten chunksize hC bytes]

theorem C7_multirange_ignored_witness :
    (FileResponse_init [1, 2, 3] 0 ⟨none, some "bytes=0-10,20-30".data⟩
        none 4 0 none =
      .ok { status := 200, last_modified := some 0, content_range := none,
            content_length := some 3, date := some 0, expires := none,
            content_type := none, app_iter := some (none, 4) }) ∧
    (_file_iter [1, 2, 3] 4 none).map (fun r => r.1.flatten) =
      .ok [1, 2, 3] := by
  have h := C7_multirange_ignored [1, 2, 3] 0 none "bytes=0-10,20-30".data
    none 4 0 none rfl (by norm_num) (Or.inl (by decide))
  exact ⟨h.1.trans (by rfl), h.2⟩

/-! ### Claim C8: suffix ranges, including over-long ones -/

/-- C8: a suffix header `bytes=-N` parses to
`(content_length - N, content_length)`; when `N` exceeds the file size the
computed start is negative, the `start >= content_length` guard does not
fire, and the responder emits a 206 whose `Content-Range` carries the
negative, unclamped start. -/
theorem C8_suffix_range (bytes : List Nat) (mtime : Int) (ims : Option Int)
    (n : List Char) (expires : Option Int) (chunksize : Nat) (now : Int)
    (ctype : Option String)
    (hn : n ≠ []) (hdn : n.all Char.isDigit = true)
    (hnm : notModifiedCheck mtime ims = false) :
    _get_range (some ("bytes=".data ++ ('-' :: n))) (bytes.length : Int) =
      .ok (some ((bytes.length : Int) - digitsToNat n, (bytes.length : Int))) ∧
    (bytes.length < digitsToNat n →
      (bytes.length : Int) - digitsToNat n < 0 ∧
      FileResponse_init bytes mtime ⟨ims, some ("bytes=".data ++ ('-' :: n))⟩
          expires chunksize now ctype =
        .ok { status := 206, last_modified := some mtime,
              content_range := some ("bytes "
                ++ toString ((bytes.length : Int) - digitsToNat n) ++ "-"
                ++ toString ((bytes.length : Int) - 1) ++ "/"
                ++ toString ((bytes.length : Int))),
              content_length := some ((digitsToNat n : Int)),
              date := some now, expires := expires.map (fun d => now + d),
              content_type := ctype,
              app_iter := some (some ((bytes.length : Int) - digitsToNat n,
                (bytes.length : Int)), chunksize) }) := by
  have hgr := getRange_suffix n (bytes.length : Int) hn hdn
  constructor
  · exact hgr
  · intro hlt
    have hneg : (bytes.length : Int) - digitsToNat n < 0 := by
      have hcast : (bytes.length : Int) < (digitsToNat n : Int) := by
        exact_mod_cast hlt
      omega
    refine ⟨hneg, ?_⟩
    have h206 := FileResponse_init_206 bytes mtime
      ⟨ims, some ("bytes=".data ++ ('-' :: n))⟩ expires chunksize now ctype
      ((bytes.length : Int) - digitsToNat n) (bytes.length : Int) hnm hgr
      (by omega)
    rw [h206]
    have hcl : (bytes.length : Int) - ((bytes.length : Int) - digitsToNat n)
        = (digitsToNat n : Int) := by ring
    rw [hcl]

theorem C8_suffix_range_witness :
    _get_range (some ("bytes=".data ++ ('-' :: "100".data)))
        (([0, 1, 2] : List Nat).length : Int) =
      .ok (some ((([0, 1, 2] : List Nat).length : Int) - digitsToNat "100".data,
        (([0, 1, 2] : List Nat).length : Int))) ∧
    ((([0, 1, 2] : List Nat).length : Int) - digitsToNat "100".data < 0 ∧
      FileResponse_init [0, 1, 2] 0
          ⟨none, some ("bytes=".data ++ ('-' :: "100".data))⟩ none 4 0 none =
        .ok { status := 206, last_modified := some 0,
              content_range := some ("bytes "
                ++ toString ((([0, 1, 2] : List Nat).length : Int)
                  - digitsToNat "100".data) ++ "-"
                ++ toString ((([0, 1, 2] : List Nat).length : Int) - 1) ++ "/"
                ++ toString ((([0, 1, 2] : List Nat).length : Int))),
              content_length := some ((digitsToNat "100".data : Int)),
              date := some 0, expires := none, content_type := none,
              app_iter := some (some ((([0, 1, 2] : List Nat).length : Int)
                - digitsToNat "100".data,
                (([0, 1, 2] : List Nat).length : Int)), 4) }) := by
  have h := C8_suffix_range [0, 1, 2] 0 none "100".data none 4 0 none
    (by decide) (by decide) rfl
  exact ⟨h.1, h.2 (by decide)⟩

/-! ### Claim C10: reversed and empty intervals are not rejected -/

/-- C10: the responder never checks `end > start`: for `bytes=A-B` with
`A < S` and `B + 1 ≤ A`, it still answers 206, with a zero or negative
`Content-Length` of `B + 1 - A`, instead of rejecting the range or
falling back to a full response. -/
theorem C10_reversed_range_accepted (bytes : List Nat) (mtime : Int)
    (ims : Option Int) (a b : List Char) (expires : Option Int)
    (chunksize : Nat) (now : Int) (ctype : Option String)
    (ha : a ≠ []) (hda : a.all Char.isDigit = true)
    (hb : b ≠ []) (hdb : b.all Char.isDigit = true)
    (hnm : notModifiedCheck mtime ims = false)
    (hA : digitsToNat a < bytes.length)
    (hBA : digitsToNat b + 1 ≤ digitsToNat a) :
    ∃ r, FileResponse_init bytes mtime
        ⟨ims, some ("bytes=".data ++ (a ++ '-' :: b))⟩ expires chunksize now
        ctype = .ok r ∧
      r.status = 206 ∧
      r.content_length = some ((digitsToNat b : Int) + 1 - digitsToNat a) ∧
      (digitsToNat b : Int) + 1 - digitsToNat a ≤ 0 := by
  have hgr := getRange_two_numbers a b (bytes.length : Int) ha hda hb hdb
  have hlt : (digitsToNat a : Int) < (bytes.length : Int) := by exact_mod_cast hA
  have h206 := FileResponse_init_206 bytes mtime
    ⟨ims, some ("bytes=".data ++ (a ++ '-' :: b))⟩ expires chunksize now ctype
    (digitsToNat a) ((digitsToNat b : Int) + 1) hnm hgr hlt
  refine ⟨_, h206, rfl, rfl, ?_⟩
  have hcast : (digitsToNat b : Int) + 1 ≤ (digitsToNat a : Int) := by
    exact_mod_cast hBA
  omega

theorem C10_reversed_range_accepted_witness :
    ∃ r, FileResponse_init [0, 1, 2, 3, 4, 5, 6, 7, 8, 9] 0
        ⟨none, some ("bytes=".data ++ ("7".data ++ '-' :: "3".data))⟩ none 4 0
        none = .ok r ∧
      r.status = 206 ∧
      r.content_length =
        some ((digitsToNat "3".data : Int) + 1 - digitsToNat "7".data) ∧
      (digitsToNat "3".data : Int) + 1 - digitsToNat "7".data ≤ 0 :=
  C10_reversed_range_accepted [0, 1, 2, 3, 4, 5, 6, 7, 8, 9] 0 none
    "7".data "3".data none 4 0 none (by decide) (by decide) (by decide)
    (by decide) rfl (by decide) (by decide)

/-! ### Claim C6: full-file chunked streaming and handle release -/

/-- C6: streaming a file of `N` bytes without a range at chunk size
`chunksize > 0` yields exactly `ceil(N / chunksize)` chunks (here written
`(N + chunksize - 1) / chunksize`), each of at most `chunksize` bytes,
concatenating to exactly the file's bytes; after the last chunk the
generator's `finally:` has closed the handle, and abandoning the
generator early (`genClose`, Python's `GeneratorExit` path) closes it as
well. -/
theorem C6_full_file_streaming (bytes : List Nat) (chunksize : Nat)
    (hC : 0 < chunksize) :
    (∃ chunks fin, _file_iter bytes chunksize none = .ok (chunks, fin) ∧
      chunks.length = (bytes.length + chunksize - 1) / chunksize ∧
      (∀ b ∈ chunks, b.length ≤ chunksize) ∧
      chunks.flatten = bytes ∧
      fin.closed = true) ∧
    (∀ st : GenState, (genClose st).closed = true) := by
  constructor
  · refine ⟨(runGen chunksize ⟨bytes, none, false⟩).1,
      (runGen chunksize ⟨bytes, none, false⟩).2, by simp [_file_iter],
      ?_, ?_, ?_, ?_⟩
    · exact runGen_none_length chunksize hC bytes
    · exact runGen_none_sizes chunksize bytes
    · exact runGen_none_flatten chunksize hC bytes
    · exact runGen_closed chunksize _
  · intro st
    rfl

theorem C6_full_file_streaming_witness :
    (∃ chunks fin, _file_iter [1, 2, 3, 4, 5] 2 none = .ok (chunks, fin) ∧
      chunks.length = (([1, 2, 3, 4, 5] : List Nat).length + 2 - 1) / 2 ∧
      (∀ b ∈ chunks, b.length ≤ 2) ∧
      chunks.flatten = [1, 2, 3, 4, 5] ∧
      fin.closed = true) ∧
    (∀ st : GenState, (genClose st).closed = true) :=
  C6_full_file_streaming [1, 2, 3, 4, 5] 2 (by norm_num)

/-! ### Claim C9: directory requests without a trailing slash -/

/-- C9: when the resolved path names a directory (per the asset locator of
the active branch) and the request URL does not end in `/`, the view
answers 301 Moved Permanently to the same URL with `/` appended, keeping
the query string, and it does so before any file is touched (the result is
a redirect, never a `fileResponse`). -/
theorem C9_directory_redirect (package_name : Option String)
    (docroot norm_docroot index : String)
    (resource_isdir resource_exists : String → String → Bool)
    (resource_filename : String → String → String)
    (isdir path_exists : String → Bool)
    (normjoin osjoin : String → String → String)
    (path_tuple : List String) (url path_url query_string : String)
    (p : String)
    (hsec : secure_path path_tuple = some p)
    (hslash : pyEndsWith1 path_url '/' = false) :
    (pyTruthyStr package_name = true →
      resource_isdir (package_name.getD "")
        (pyRstrip docroot '/' ++ "/" ++ p) = true →
      static_view_call package_name docroot norm_docroot index resource_isdir
        resource_exists resource_filename isdir path_exists normjoin osjoin
        path_tuple url path_url query_string =
        ViewResult.httpMovedPermanently
          (if query_string ≠ "" then (path_url ++ "/") ++ "?" ++ query_string
           else path_url ++ "/")) ∧
    (pyTruthyStr package_name = false →
      isdir (normjoin norm_docroot p) = true →
      static_view_call package_name docroot norm_docroot index resource_isdir
        resource_exists resource_filename isdir path_exists normjoin osjoin
        path_tuple url path_url query_string =
        ViewResult.httpMovedPermanently
          (if query_string ≠ "" then (path_url ++ "/") ++ "?" ++ query_string
           else path_url ++ "/")) := by
  constructor <;> intro h1 h2 <;>
    simp [static_view_call, hsec, h1, h2, hslash, add_slash_redirect] <;>
    split <;> rfl

theorem C9_directory_redirect_witness :
    static_view_call none "d" "d" "index.html" (fun _ _ => false)
      (fun _ _ => false) (fun _ r => r) (fun _ => true) (fun _ => true)
      (fun a b => a ++ "/" ++ b) (fun a b => a ++ "/" ++ b) ["sub"] "u"
      "/d/sub" "x=1" =
      ViewResult.httpMovedPermanently "/d/sub/?x=1" := by
  have h := (C9_directory_redirect none "d" "d" "index.html"
    (fun _ _ => false) (fun _ _ => false) (fun _ r => r) (fun _ => true)
    (fun _ => true) (fun a b => a ++ "/" ++ b) (fun a b => a ++ "/" ++ b)
    ["sub"] "u" "/d/sub" "x=1" "sub" (by decide) (by decide)).2 rfl rfl
  rw [h]
  decide

/-! ### Claim C1: single byte ranges

The claim as frozen quantifies over every header `bytes=A-B` with `A < S`
and asserts the body equals the file's bytes in `[A, B + 1)`.  For a
reversed interval (`B + 1 < A`) the `ByteReader` budget `end - start` is
negative, `min(bytes_left, chunksize)` is negative, and a Python 2
`file.read` with a negative size reads to EOF — the body is the whole
file suffix from `A`, not the empty byte string the claim's interval
`[A, B + 1)` denotes.  The claim holds once the interval is required not
to be reversed (`A ≤ B + 1`). -/

/-- C1 counterexample: the 10-byte file `0..9` with header `bytes=5-2`
(so `A = 5 < 10`, parsed interval `[5, 3)`, which is empty): the claim
demands an empty body, but the responder answers 206 and the realized
body is `[5, 6, 7, 8, 9]`, the file suffix from offset 5. -/
theorem C1_counterexample :
    FileResponse_init [0, 1, 2, 3, 4, 5, 6, 7, 8, 9] 0
        ⟨none, some "bytes=5-2".data⟩ none 4 0 none =
      .ok { status := 206, last_modified := some 0,
            content_range := some "bytes 5-2/10", content_length := some (-2),
            date := some 0, expires := none, content_type := none,
            app_iter := some (some (5, 3), 4) } ∧
    (_file_iter [0, 1, 2, 3, 4, 5, 6, 7, 8, 9] 4 (some (5, 3))).map
        (fun r => r.1.flatten) = .ok [5, 6, 7, 8, 9] ∧
    ([5, 6, 7, 8, 9] : List Nat) ≠ [] := by
  have hg1 : get_bytes 4 ⟨[5, 6, 7, 8, 9], some (-2), false⟩ =
      ([5, 6, 7, 8, 9], ⟨[], some (-7), false⟩) := by decide
  have hg2 : get_bytes 4 ⟨[], some (-7), false⟩ =
      ([], ⟨[], some (-7), false⟩) := by decide
  have e2 : runGen 4 ⟨[], some (-7), false⟩ = ([], ⟨[], some (-7), true⟩) := by
    rw [runGen_unfold, hg2]
    simp
  have e1 : runGen 4 ⟨[5, 6, 7, 8, 9], some (-2), false⟩ =
      ([[5, 6, 7, 8, 9]], ⟨[], some (-7), true⟩) := by
    rw [runGen_unfold, hg1]
    simp [e2]
  have e0 : _file_iter [0, 1, 2, 3, 4, 5, 6, 7, 8, 9] 4 (some (5, 3)) =
      .ok (runGen 4 ⟨[5, 6, 7, 8, 9], some (-2), false⟩) := rfl
  refine ⟨by rfl, ?_, by decide⟩
  rw [e0, e1]
  rfl

/-- C1 (amended: the parsed interval must additionally not be reversed,
`A ≤ B + 1`): for every file and header `bytes=A-B` with `A < S`, the
responder parses `start = A`, `end = B + 1`, answers 206 with
`Content-Range: bytes {A}-{B}/{S}` and `Content-Length = B + 1 - A`, and
the body — the generator seeks to `A` and reads through a
`ByteReader(B + 1 - A)` budget — is exactly the file's bytes in
`[A, B + 1)`. -/
theorem C1_single_range_response (bytes : List Nat) (mtime : Int)
    (ims : Option Int) (a b : List Char) (expires : Option Int)
    (chunksize : Nat) (now : Int) (ctype : Option String)
    (ha : a ≠ []) (hda : a.all Char.isDigit = true)
    (hb : b ≠ []) (hdb : b.all Char.isDigit = true)
    (hnm : notModifiedCheck mtime ims = false)
    (hC : 0 < chunksize)
    (hA : digitsToNat a < bytes.length)
    (hAB : digitsToNat a ≤ digitsToNat b + 1) :
    FileResponse_init bytes mtime ⟨ims, some ("bytes=".data ++ (a ++ '-' :: b))⟩
        expires chunksize now ctype =
      .ok { status := 206, last_modified := some mtime,
            content_range := some ("bytes " ++ toString ((digitsToNat a : Int))
              ++ "-" ++ toString ((digitsToNat b : Int) + 1 - 1) ++ "/"
              ++ toString ((bytes.length : Int))),
            content_length := some ((digitsToNat b : Int) + 1 - digitsToNat a),
            date := some now, expires := expires.map (fun d => now + d),
            content_type := ctype,
            app_iter := some (some ((digitsToNat a : Int),
              (digitsToNat b : Int) + 1), chunksize) } ∧
    (_file_iter bytes chunksize (some ((digitsToNat a : Int),
        (digitsToNat b : Int) + 1))).map (fun r => r.1.flatten) =
      .ok ((bytes.drop (digitsToNat a)).take
        (digitsToNat b + 1 - digitsToNat a)) := by
  have hgr := getRange_two_numbers a b (bytes.length : Int) ha hda hb hdb
  have hlt : (digitsToNat a : Int) < (bytes.length : Int) := by exact_mod_cast hA
  constructor
  · exact FileResponse_init_206 bytes mtime
      ⟨ims, some ("bytes=".data ++ (a ++ '-' :: b))⟩ expires chunksize now
      ctype (digitsToNat a) ((digitsToNat b : Int) + 1) hnm hgr hlt
  · have hcast : (digitsToNat a : Int) ≤ (digitsToNat b : Int) + 1 := by
      exact_mod_cast hAB
    have h0 : ¬ ((digitsToNat a : Int) < 0) := by omega
    have hflat := runGen_some_flatten chunksize hC
      (bytes.drop (digitsToNat a)) ((digitsToNat b : Int) + 1 - digitsToNat a)
      (by omega)
    have htn : ((digitsToNat b : Int) + 1 - digitsToNat a).toNat
        = digitsToNat b + 1 - digitsToNat a := by omega
    simp only [_file_iter, h0, if_false, Int.toNat_natCast, Except.map]
    rw [hflat, htn]

theorem C1_single_range_response_witness :
    FileResponse_init [0, 1, 2, 3, 4, 5, 6, 7, 8, 9] 0
        ⟨none, some ("bytes=".data ++ ("2".data ++ '-' :: "5".data))⟩ none 4 0
        none =
      .ok { status := 206, last_modified := some 0,
            content_range := some ("bytes "
              ++ toString ((digitsToNat "2".data : Int)) ++ "-"
              ++ toString ((digitsToNat "5".data : Int) + 1 - 1) ++ "/"
              ++ toString ((([0, 1, 2, 3, 4, 5, 6, 7, 8, 9] : List Nat).length
                : Int))),
            content_length := some ((digitsToNat "5".data : Int) + 1
              - digitsToNat "2".data),
            date := some 0, expires := none, content_type := none,
            app_iter := some (some ((digitsToNat "2".data : Int),
              (digitsToNat "5".data : Int) + 1), 4) } ∧
    (_file_iter [0, 1, 2, 3, 4, 5, 6, 7, 8, 9] 4
        (some ((digitsToNat "2".data : Int),
          (digitsToNat "5".data : Int) + 1))).map (fun r => r.1.flatten) =
      .ok ((([0, 1, 2, 3, 4, 5, 6, 7, 8, 9] : List Nat).drop
        (digitsToNat "2".data)).take
        (digitsToNat "5".data + 1 - digitsToNat "2".data)) :=
  C1_single_range_response [0, 1, 2, 3, 4, 5, 6, 7, 8, 9] 0 none
    "2".data "5".data none 4 0 none (by decide) (by decide) (by decide)
    (by decide) rfl (by norm_num) (by decide) (by decide)

/-! ### Claim C5: malformed Range headers

The claim says every malformed header — naming missing `=`, non-numeric
bounds, and the open-ended `bytes=A-` form — degrades silently to a full
200 response.  In the source only the multi-range and non-`bytes`-unit
shapes degrade; the three shapes the claim itself names all raise an
uncaught `ValueError` (from tuple unpacking of `split('=', 1)` or from
`int()`), so no response is produced at all. -/

/-- C5 counterexample: the open-ended header `bytes=0-` — one of the
claim's own examples — makes `int('')` raise `ValueError` inside
`_get_range`; `FileResponse.__init__` propagates it, producing no 200
response. -/
theorem C5_counterexample :
    FileResponse_init [0, 1, 2] 0 ⟨none, some "bytes=0-".data⟩ none 4 0
      none = .error () := by
  rfl

/-- C5 (amended): only multi-range and non-`bytes`-unit Range headers are
silently treated as absent; a Range header with no `=` at all (and no
comma), the open-ended `bytes=A-` form, and non-numeric bounds such as
`bytes=abc-def` all raise an uncaught `ValueError` instead of producing a
full 200 response. -/
theorem C5_malformed_range_raises (bytes : List Nat) (mtime : Int)
    (ims : Option Int) (expires : Option Int) (chunksize : Nat) (now : Int)
    (ctype : Option String)
    (hnm : notModifiedCheck mtime ims = false) :
    (∀ hdr : List Char, pyContainsChar hdr ',' = false →
      pyContainsChar hdr '=' = false →
      FileResponse_init bytes mtime ⟨ims, some hdr⟩ expires chunksize now
        ctype = .error ()) ∧
    (∀ a : List Char, a ≠ [] → a.all Char.isDigit = true →
      FileResponse_init bytes mtime ⟨ims, some ("bytes=".data ++ (a ++ ['-']))⟩
        expires chunksize now ctype = .error ()) ∧
    FileResponse_init bytes mtime ⟨ims, some "bytes=abc-def".data⟩ expires
      chunksize now ctype = .error () := by
  refine ⟨?_, ?_, ?_⟩
  · intro hdr hc he
    apply FileResponse_init_raises _ _ _ _ _ _ _ hnm
    simp [_get_range, hc, splitOnceChar_not_contains '=' hdr he]
  · intro a ha hda
    apply FileResponse_init_raises _ _ _ _ _ _ _ hnm
    have hcomma : pyContainsChar
        ('b' :: 'y' :: 't' :: 'e' :: 's' :: '=' :: (a ++ ['-'])) ',' = false := by
      simp only [pyContainsChar_append, pyContainsChar_cons,
        pyContainsChar_of_digits a ',' (by decide) hda]
      decide
    have hsw : pyStartsWithChar (a ++ ['-']) '-' = false :=
      pyStartsWithChar_append_digits a ['-'] '-' (by decide) ha hda
    have hsplit : splitCharList '-' (a ++ ['-']) = [a, []] := by
      have h1 := splitCharList_append_sep '-' a []
        (digits_ne_char a '-' (by decide) hda)
      simpa [splitCharList] using h1
    simp only [_get_range, hcomma, Bool.false_eq_true, if_false,
      List.cons_append, List.nil_append, splitOnceChar_bytes_eq, ne_eq,
      not_true_eq_false, hsw, hsplit, pyIntList_digits a ha hda, if_false]
    rfl
  · apply FileResponse_init_raises _ _ _ _ _ _ _ hnm
    rfl

theorem C5_malformed_range_raises_witness :
    FileResponse_init [0] 0 ⟨none, some "Range 0-5".data⟩ none 4 0 none =
      .error () ∧
    FileResponse_init [0] 0 ⟨none, some ("bytes=".data ++ ("7".data ++ ['-']))⟩
      none 4 0 none = .error () :=
  ⟨(C5_malformed_range_raises [0] 0 none none 4 0 none rfl).1
      "Range 0-5".data (by decide) (by decide),
   (C5_malformed_range_raises [0] 0 none none 4 0 none rfl).2.1
      "7".data (by decide) (by decide)⟩
